import Mathlib

/-!
Shallow embedding of the WEEKLY repository's tabular filter/export engine
(`excel_processor.py` and `streamlit_app.py`) and proofs about it.

Strings are modelled as `List Char`, restricted to the ASCII fragment that the
repository's data uses (Python's `\d` and `re.IGNORECASE` additionally cover
non-ASCII code points, which never occur in the modelled inputs).
-/

namespace Weekly

/-- ASCII decimal digit test, modelling the ASCII fragment of Python regex `\d`. -/
def isDig (c : Char) : Bool := 48 ≤ c.toNat && c.toNat ≤ 57

/-- Numeric value of an ASCII digit character. -/
def digVal (c : Char) : Nat := c.toNat - 48

/-- ASCII digit character for a value below ten. -/
def digCh (n : Nat) : Char := Char.ofNat (48 + n)

/-- Whole-string match of the pattern `\d{2}\.\d{2}\.\d{4}`: exactly two digits,
a literal dot, two digits, a dot, and four digits, with nothing else. -/
def exactDatePattern : List Char → Bool
  | [a, b, c, d, e, f, g, h, i, j] =>
      isDig a && isDig b && c == '.' && isDig d && isDig e && f == '.' &&
      isDig g && isDig h && isDig i && isDig j
  | _ => false

/-- Embedding of `ExcelDataProcessor.is_date_sheet`, i.e. of
`re.match(r'^\d{2}\.\d{2}\.\d{4}$', sheet_name)`. In Python, `$` (without
`re.MULTILINE`) matches at the end of the string or just before a single
newline that ends the string, so the classifier also accepts the ten-character
date shape followed by one trailing `'\n'`. -/
def is_date_sheet (s : List Char) : Bool :=
  exactDatePattern s || (s.getLast? == some '\n' && exactDatePattern s.dropLast)

/-- Calendar date as produced by Python's `datetime` (year, month, day). -/
structure Date where
  year : Nat
  month : Nat
  day : Nat
deriving DecidableEq

/-- Lexicographic comparison on dates: the order `datetime` objects compare by. -/
def dateLE (a b : Date) : Bool :=
  decide (a.year < b.year ∨ (a.year = b.year ∧
    (a.month < b.month ∨ (a.month = b.month ∧ a.day ≤ b.day))))

/-- Leap-year rule used by Python's `datetime` (proleptic Gregorian calendar). -/
def isLeap (y : Nat) : Bool := y % 4 == 0 && (y % 100 != 0 || y % 400 == 0)

/-- Number of days in a month, as validated by the `datetime` constructor. -/
def daysInMonth (y m : Nat) : Nat :=
  if m == 2 then (if isLeap y then 29 else 28)
  else if m == 4 || m == 6 || m == 9 || m == 11 then 30
  else 31

/-- Validity check of the `datetime(year, month, day)` constructor:
`MINYEAR = 1 ≤ year ≤ MAXYEAR = 9999`, `1 ≤ month ≤ 12`,
`1 ≤ day ≤ days in that month`; out-of-range values raise `ValueError`. -/
def mkDatetime (y m d : Nat) : Option Date :=
  if 1 ≤ y && y ≤ 9999 && 1 ≤ m && m ≤ 12 && 1 ≤ d && d ≤ daysInMonth y m then
    some ⟨y, m, d⟩
  else none

/-- Alternatives of the regex `strptime` uses for `%d`, namely
`3[01]|[12]\d|0[1-9]|[1-9]`, tried in this order; each candidate is the parsed
value together with the remaining input. -/
def dayParses : List Char → List (Nat × List Char)
  | a :: b :: rest =>
      (if a == '3' && (b == '0' || b == '1') then [(30 + digVal b, rest)] else []) ++
      (if (a == '1' || a == '2') && isDig b then [(digVal a * 10 + digVal b, rest)] else []) ++
      (if a == '0' && isDig b && b != '0' then [(digVal b, rest)] else []) ++
      (if isDig a && a != '0' then [(digVal a, b :: rest)] else [])
  | [a] => if isDig a && a != '0' then [(digVal a, [])] else []
  | [] => []

/-- Alternatives of the regex `strptime` uses for `%m`, namely
`1[0-2]|0[1-9]|[1-9]`, tried in this order. -/
def monthParses : List Char → List (Nat × List Char)
  | a :: b :: rest =>
      (if a == '1' && (b == '0' || b == '1' || b == '2') then [(10 + digVal b, rest)] else []) ++
      (if a == '0' && isDig b && b != '0' then [(digVal b, rest)] else []) ++
      (if isDig a && a != '0' then [(digVal a, b :: rest)] else [])
  | [a] => if isDig a && a != '0' then [(digVal a, [])] else []
  | [] => []

/-- The regex `strptime` uses for `%Y` is exactly four digits (`\d\d\d\d`). -/
def parseYear : List Char → Option (Nat × List Char)
  | a :: b :: c :: d :: rest =>
      if isDig a && isDig b && isDig c && isDig d then
        some (digVal a * 1000 + digVal b * 100 + digVal c * 10 + digVal d, rest)
      else none
  | _ => none

/-- Year parses that also consume the rest of the input, as `strptime` demands
(`unconverted data remains` otherwise). -/
def yearEndParse (r : List Char) : List Nat :=
  match parseYear r with
  | some (y, []) => [y]
  | _ => []

/-- Continuation after the month: a literal dot followed by the year, which
must consume the rest of the input. -/
def afterMonth (q : Nat × List Char) : List (Nat × Nat) :=
  match q.2 with
  | c :: r4 => if c == '.' then (yearEndParse r4).map fun y => (q.1, y) else []
  | [] => []

/-- Parses of the `.%m.%Y` tail of the format, returning (month, year) pairs
that consume the whole remaining input. -/
def monthRestParses : List Char → List (Nat × Nat)
  | c :: r2 => if c == '.' then (monthParses r2).flatMap afterMonth else []
  | [] => []

/-- Complete parses of a string against the format `%d.%m.%Y`: every way the
`strptime` regex can consume the entire input, as (day, month, year). For this
format a full parse is unique when it exists. -/
def fullParses (s : List Char) : List (Nat × Nat × Nat) :=
  (dayParses s).flatMap fun p => (monthRestParses p.2).map fun q => (p.1, q.1, q.2)

/-- Embedding of `ExcelDataProcessor.parse_date`, i.e. of
`datetime.strptime(date_str, '%d.%m.%Y')`: the format regex must consume the
whole string, then the matched values must form a valid `datetime`;
`none` models the `ValueError` raised otherwise. -/
def parse_date (s : List Char) : Option Date :=
  match fullParses s with
  | [] => none
  | (d, m, y) :: _ => mkDatetime y m d

/-- Two-digit zero-padded rendering used by `strftime` for `%d` and `%m`. -/
def pad2 (n : Nat) : List Char :=
  if n < 10 then ['0', digCh n] else [digCh (n / 10), digCh (n % 10)]

/-- Rendering of `%Y` by `strftime` on the host C library (glibc): the year as
a plain decimal number without zero padding, so years below 1000 render with
fewer than four characters. -/
def formatYear (y : Nat) : List Char :=
  if 1000 ≤ y then [digCh (y / 1000), digCh (y / 100 % 10), digCh (y / 10 % 10), digCh (y % 10)]
  else if 100 ≤ y then [digCh (y / 100), digCh (y / 10 % 10), digCh (y % 10)]
  else if 10 ≤ y then [digCh (y / 10), digCh (y % 10)]
  else [digCh y]

/-- Embedding of `strftime('%d.%m.%Y')` as used by the front ends to format
dates back to strings. -/
def format_date (dt : Date) : List Char :=
  pad2 dt.day ++ '.' :: pad2 dt.month ++ '.' :: formatYear dt.year

/-- Lowercase one character; ASCII case folding as performed by `str.lower()`
and `re.IGNORECASE` on the modelled data. -/
def lowCh (c : Char) : Char := Char.toLower c

/-- Lowercase a whole string. -/
def lowStr (s : List Char) : List Char := s.map lowCh

/-- Containment of `pat` as a contiguous substring of the second argument,
modelling Python's `in` operator on strings. -/
def containsSub (pat : List Char) : List Char → Bool
  | [] => pat.isEmpty
  | c :: rest => pat.isPrefixOf (c :: rest) || containsSub pat rest

/-- Fixed header vocabulary of the supervisor-column scan. -/
def vocab : List (List Char) :=
  ["team leader".toList, "team_leader".toList, "teamleader".toList, "supervisor".toList]

/-- One header qualifies when its lower-cased text contains one of the four
vocabulary substrings, as in `any(term in str(col).lower() for term in [...])`. -/
def headerMatches (h : List Char) : Bool :=
  vocab.any fun term => containsSub term (lowStr h)

/-- Index of the first element satisfying a predicate. -/
def firstIdx (p : α → Bool) : List α → Option Nat
  | [] => none
  | a :: l => if p a then some 0 else (firstIdx p l).map (· + 1)

/-- Index of the first qualifying header; models selecting `team_leader_cols[0]`
from the comprehension over `df.columns`, `none` when no header qualifies. -/
def findTeamLeaderCol (headers : List (List Char)) : Option Nat :=
  firstIdx headerMatches headers

/-- The header text the resolver selects (the first matching column header). -/
def supervisorHeader (headers : List (List Char)) : Option (List Char) :=
  headers.find? headerMatches

/-- Token of the modelled regex fragment: one literal character or the
wildcard dot. -/
inductive PatTok where
  | lit (c : Char)
  | dot
deriving DecidableEq

/-- Code points of the Python regex metacharacters: dollar, parentheses, star,
plus, dot, question mark, square brackets, backslash, caret, curly brackets
and vertical bar. -/
def regexMetaChar (c : Char) : Bool :=
  c.toNat ∈ [36, 40, 41, 42, 43, 46, 63, 91, 92, 93, 94, 123, 124, 125]

/-- Compilation of a pattern string into the modelled fragment: a dot becomes
the wildcard, every other character a literal. This is faithful to Python
regex compilation for pattern strings whose only metacharacter is the dot;
all theorems below stay within that fragment. -/
def compilePat (name : List Char) : List PatTok :=
  name.map fun c => if c == '.' then PatTok.dot else PatTok.lit c

/-- Single-token match under `re.IGNORECASE`; the wildcard matches any
character except a newline (`re.DOTALL` is off). -/
def tokMatch : PatTok → Char → Bool
  | .lit c, d => lowCh c == lowCh d
  | .dot, d => d != '\n'

/-- Match of a token sequence against a prefix of the input. -/
def matchesAt : List PatTok → List Char → Bool
  | [], _ => true
  | _ :: _, [] => false
  | t :: ts, c :: cs => tokMatch t c && matchesAt ts cs

/-- Unanchored search, modelling `re.search`: the token sequence matches at
some position of the input. -/
def reSearch (p : List PatTok) : List Char → Bool
  | [] => matchesAt p []
  | c :: cs => matchesAt p (c :: cs) || reSearch p cs

/-- Embedding of the per-cell test
`.str.contains(team_leader, case=False, na=False)` applied after
`astype(str)`: a case-insensitive regex search of the requested name inside
the cell's string value. -/
def cellMatches (name cell : List Char) : Bool := reSearch (compilePat name) cell

/-- Spec-side predicate (plain reading of the spec's wording): the lower-cased
cell value contains the lower-cased requested name as a plain contiguous
substring. -/
def substrCI (name cell : List Char) : Bool := containsSub (lowStr name) (lowStr cell)

/-- One cell as read by `pandas.read_excel`: `none` models a missing value
(NaN), `some v` the string value `v`. -/
abbrev Cell := Option (List Char)

/-- String conversion `astype(str)` of one cell: a missing value renders as
the string `"nan"`, a present value stays itself. -/
def cellStr : Cell → List Char
  | none => "nan".toList
  | some v => v

/-- One sheet: its tab name, header row, and data rows. -/
structure Sheet where
  name : List Char
  headers : List (List Char)
  rows : List (List Cell)
deriving DecidableEq

/-- A workbook: its sheets in insertion (file) order. -/
structure Workbook where
  sheets : List Sheet
deriving DecidableEq

/-- The workbook's sheet names in order (`xls.sheet_names`). -/
def sheetNamesOf (wb : Workbook) : List (List Char) := wb.sheets.map Sheet.name

/-- Lookup of a sheet by name, as in `pd.read_excel(file_path, sheet_name=n)`. -/
def readSheet (wb : Workbook) (n : List Char) : Option Sheet :=
  wb.sheets.find? fun sh => sh.name == n

/-- Embedding of `ExcelDataProcessor.get_team_leaders` on one sheet: when a
supervisor column resolves, the set of distinct non-missing values of that
column (`dropna().astype(str).unique()`), otherwise the empty set. Cells past
the end of a short row read as missing. -/
def sheetSupervisors (sh : Sheet) : Finset (List Char) :=
  match findTeamLeaderCol sh.headers with
  | none => ∅
  | some idx => ((sh.rows.map fun r => r.getD idx none).filterMap id).toFinset

/-- Mutable instance state of the desktop `ExcelDataProcessor`:
`self.date_sheets` and the accumulated `self.team_leaders` set. -/
structure ProcState where
  date_sheets : List (List Char)
  team_leaders : Finset (List Char)
deriving DecidableEq

/-- State of a freshly constructed processor (`__init__`). -/
def initState : ProcState := ⟨[], ∅⟩

/-- Outcome of `process_workbook`: which message (if any) was shown. -/
inductive ProcOutcome where
  | noDateSheetsErr
  | dateParseErr
  | noTeamLeadersErr
  | success
deriving DecidableEq

/-- Sort key of a sheet name: its parsed date. Callers establish that every
name parses before sorting, mirroring `sort(key=self.parse_date)`; the
default value is never reached under that precondition. -/
def dateKey (n : List Char) : Date := (parse_date n).getD ⟨0, 0, 0⟩

/-- Order on sheet names induced by their parsed dates. -/
def sheetLE (a b : List Char) : Prop := dateLE (dateKey a) (dateKey b) = true

instance : DecidableRel sheetLE := fun _ _ => inferInstanceAs (Decidable (_ = true))

/-- Stable ascending sort by parsed date, modelling Python's stable
`self.date_sheets.sort(key=lambda x: self.parse_date(x))`. -/
def sortSheets (names : List (List Char)) : List (List Char) :=
  List.insertionSort sheetLE names

/-- Supervisors contributed by the sheet of the given name. -/
def sheetSupervisorsByName (wb : Workbook) (n : List Char) : Finset (List Char) :=
  match readSheet wb n with
  | some sh => sheetSupervisors sh
  | none => ∅

/-- Accumulation `self.team_leaders.update(self.get_team_leaders(df))` over
the listed sheets, starting from the set already on the instance. -/
def supervisorsFold (wb : Workbook) (names : List (List Char))
    (acc : Finset (List Char)) : Finset (List Char) :=
  names.foldl (fun s n => s ∪ sheetSupervisorsByName wb n) acc

/-- Embedding of the desktop `ExcelDataProcessor.process_workbook`: find the
date-named sheets (error when none), sort them by parsed date (a parse
failure raises before the list is reordered, since Python computes all sort
keys first), accumulate team leaders over all date sheets, and report an
error when the accumulated set is empty. -/
def process_workbook (st : ProcState) (wb : Workbook) : ProcOutcome × ProcState :=
  let ds := (sheetNamesOf wb).filter is_date_sheet
  if ds.isEmpty then (.noDateSheetsErr, { st with date_sheets := ds })
  else if ds.all fun n => (parse_date n).isSome then
    let sorted := sortSheets ds
    let tl := supervisorsFold wb sorted st.team_leaders
    if tl = ∅ then (.noTeamLeadersErr, ⟨sorted, tl⟩)
    else (.success, ⟨sorted, tl⟩)
  else (.dateParseErr, { st with date_sheets := ds })

/-- Kind of message the desktop `filter_data` shows alongside its result. -/
inductive FilterNote where
  | errorNote
  | noSheetsWarn
  | noDataInfo
  | okNote
deriving DecidableEq

/-- Only the catch-all `messagebox.showerror` branch is an error report; the
no-sheets warning and the no-data info box are informational. -/
def FilterNote.isError : FilterNote → Bool
  | .errorNote => true
  | _ => false

/-- One row of the concatenated filtered result: the `Source_Sheet` tag added
to the surviving row, plus the row's original cells. -/
structure ResultRow where
  source_sheet : List Char
  cells : List Cell
deriving DecidableEq

/-- Inclusive range test `start_dt <= sheet_date <= end_dt`. -/
def inRange (sd ed dt : Date) : Bool := dateLE sd dt && dateLE dt ed

/-- The names among `names` whose parsed date lies in the inclusive range. -/
def sheetsInRange (names : List (List Char)) (sd ed : Date) : List (List Char) :=
  names.filter fun n =>
    match parse_date n with
    | some dt => inRange sd ed dt
    | none => false

/-- Surviving rows of one sheet: resolve the supervisor column (the sheet is
skipped entirely when none resolves), keep the rows whose supervisor cell
matches the requested name, and tag each kept row with the sheet name. -/
def sheetFilteredRows (wb : Workbook) (name : List Char) (sheetName : List Char) :
    List ResultRow :=
  match readSheet wb sheetName with
  | none => []
  | some sh =>
    match findTeamLeaderCol sh.headers with
    | none => []
    | some idx =>
        (sh.rows.filter fun r => cellMatches name (cellStr (r.getD idx none))).map
          fun r => ⟨sheetName, r⟩

/-- Embedding of the desktop `ExcelDataProcessor.filter_data`: parse the
requested range, select the instance's date sheets inside it (warning and
empty result when none), concatenate the surviving rows per sheet in the
stored sheet order (info message and empty result when no row survives);
any parse failure is caught and reported as an error with an empty result. -/
def filter_data (st : ProcState) (wb : Workbook) (name startS endS : List Char) :
    FilterNote × List ResultRow :=
  match parse_date startS, parse_date endS with
  | some sd, some ed =>
    if st.date_sheets.all (fun n => (parse_date n).isSome) then
      let fs := sheetsInRange st.date_sheets sd ed
      if fs.isEmpty then (.noSheetsWarn, [])
      else
        let rows := fs.flatMap (sheetFilteredRows wb name)
        if rows.isEmpty then (.noDataInfo, []) else (.okNote, rows)
    else (.errorNote, [])
  | _, _ => (.errorNote, [])

/-- Embedding of the Streamlit `ExcelDataProcessor.filter_data`, which walks
the workbook's sheets in their insertion order (no sorting), skipping
non-date names; a parse failure anywhere in the walk raises, is caught, and
yields an error report with an empty result. The start and end strings are
only parsed once some date sheet is reached. -/
def filter_data_web (wb : Workbook) (name startS endS : List Char) :
    FilterNote × List ResultRow :=
  let dsheets := wb.sheets.filter fun sh => is_date_sheet sh.name
  if dsheets.all (fun sh => (parse_date sh.name).isSome) &&
      (dsheets.isEmpty || ((parse_date startS).isSome && (parse_date endS).isSome)) then
    let rows := dsheets.flatMap fun sh =>
      match parse_date sh.name, parse_date startS, parse_date endS with
      | some dt, some sd, some ed =>
          if inRange sd ed dt then sheetFilteredRows wb name sh.name else []
      | _, _, _ => []
    if rows.isEmpty then (.noDataInfo, []) else (.okNote, rows)
  else (.errorNote, [])

/-- One written cell of the output workbook, with the styling the writer sets. -/
structure StyledCell where
  value : List Char
  bold : Bool
  fontColor : Option (List Char)
  fillColor : Option (List Char)
deriving DecidableEq

/-- Header cell written by the export writer: `Font(bold=True, color="FFFFFF")`
on a solid `FF003366` fill (ARGB for the dark blue `#003366`). -/
def headerCell (h : List Char) : StyledCell :=
  ⟨h, true, some ("FFFFFF".toList), some ("FF003366".toList)⟩

/-- Data cell written by the export writer: the value verbatim, no styling. -/
def dataCell (v : List Char) : StyledCell := ⟨v, false, none, none⟩

/-- Column width set by the writer, in tenths of a character unit:
`(max_length + 2) * 1.2` represented exactly as `(max_length + 2) * 12`
tenths (the host's binary floating point rounds the product; that rounding is
abstracted away here). -/
def adjustedWidth10 (maxLen : Nat) : Nat := (maxLen + 2) * 12

/-- Greatest rendered length among a column's header and its values. -/
def colMaxLen (headers : List (List Char)) (rows : List (List (List Char))) (j : Nat) : Nat :=
  (rows.map fun r => (r.getD j []).length).foldl max (headers.getD j []).length

/-- Embedding of `ExcelDataProcessor.create_summary_tables` on a table of
string cells: `none` when the input table is empty (the source returns
`False` without writing), otherwise the styled grid (header row first, then
the data rows verbatim) together with the per-column widths in tenths. -/
def create_summary_tables (headers : List (List Char)) (rows : List (List (List Char))) :
    Option (List (List StyledCell) × List Nat) :=
  if rows.isEmpty then none
  else
    some ((headers.map headerCell) :: rows.map (fun r => r.map dataCell),
      (List.range headers.length).map fun j => adjustedWidth10 (colMaxLen headers rows j))

/-- The ten-character string `DD.MM.YYYY` built from single digit values. -/
def dateStrOf (d1 d2 m1 m2 y1 y2 y3 y4 : Nat) : List Char :=
  [digCh d1, digCh d2, '.', digCh m1, digCh m2, '.', digCh y1, digCh y2, digCh y3, digCh y4]

/-- Union of the supervisor values found on a workbook's date-named sheets. -/
def dateSheetSupervisors (wb : Workbook) : Finset (List Char) :=
  supervisorsFold wb ((sheetNamesOf wb).filter is_date_sheet) ∅

/-- Workbook with date sheets inserted out of chronological order
(`01.01.2024`, `03.01.2024`, `02.01.2024`), one matching row each. -/
def wbOrd : Workbook :=
  ⟨[⟨"01.01.2024".toList, ["Supervisor".toList], [[some ("John".toList)]]⟩,
    ⟨"03.01.2024".toList, ["Supervisor".toList], [[some ("John".toList)]]⟩,
    ⟨"02.01.2024".toList, ["Supervisor".toList], [[some ("John".toList)]]⟩]⟩

/-- Processor state after `process_workbook` succeeds on `wbOrd`. -/
def stOrd : ProcState :=
  ⟨["01.01.2024".toList, "02.01.2024".toList, "03.01.2024".toList], {"John".toList}⟩

/-- Workbook with one date sheet whose supervisor column holds `"abc"`. -/
def wbDot : Workbook :=
  ⟨[⟨"01.01.2024".toList, ["Supervisor".toList], [[some ("abc".toList)]]⟩]⟩

/-- Processor state after `process_workbook` succeeds on `wbDot`. -/
def stDot : ProcState := ⟨["01.01.2024".toList], {"abc".toList}⟩

/-- Workbook with one date sheet that has a resolvable supervisor column but
no data rows at all. -/
def wbNoRows : Workbook := ⟨[⟨"01.01.2024".toList, ["Supervisor".toList], []⟩]⟩

/-- Workbook A of the repeated-invocation scenario: one date sheet whose
supervisor column holds `"John"`. -/
def wbAccA : Workbook :=
  ⟨[⟨"01.01.2024".toList, ["Supervisor".toList], [[some ("John".toList)]]⟩]⟩

/-- Workbook B of the repeated-invocation scenario: one date sheet whose
supervisor column holds `"Sarah"`. -/
def wbAccB : Workbook :=
  ⟨[⟨"02.01.2024".toList, ["Supervisor".toList], [[some ("Sarah".toList)]]⟩]⟩

/-- Processor state after `process_workbook` succeeds on `wbAccA`. -/
def stAccA : ProcState := ⟨["01.01.2024".toList], {"John".toList}⟩

/-- One-sheet state used in the empty-result scenario. -/
def stC7 : ProcState := ⟨["01.01.2024".toList], ∅⟩

/-- Workbook of the empty-result scenario: its only row belongs to
supervisor `"Sarah"`. -/
def wbC7 : Workbook :=
  ⟨[⟨"01.01.2024".toList, ["Supervisor".toList], [[some ("Sarah".toList)]]⟩]⟩

/-- Headers of the writer scenario. -/
def headersW : List (List Char) := ["Name".toList, "Supervisor".toList]

/-- Data rows of the writer scenario. -/
def rowsW : List (List (List Char)) := [["Ann".toList, "John".toList]]

/-- Styled grid the writer produces for the writer scenario. -/
def gridW : List (List StyledCell) :=
  [[headerCell ("Name".toList), headerCell ("Supervisor".toList)],
   [dataCell ("Ann".toList), dataCell ("John".toList)]]

/-- Column widths the writer produces for the writer scenario (in tenths). -/
def widthsW : List Nat := [72, 144]

theorem dateLE_refl (a : Date) : dateLE a a = true := by
  simp [dateLE]

theorem dateLE_trans {a b c : Date} (h1 : dateLE a b = true) (h2 : dateLE b c = true) :
    dateLE a c = true := by
  simp only [dateLE, decide_eq_true_eq] at *
  omega

theorem dateLE_total (a b : Date) : dateLE a b = true ∨ dateLE b a = true := by
  simp only [dateLE, decide_eq_true_eq]
  omega

instance : IsTotal (List Char) sheetLE :=
  ⟨fun a b => dateLE_total (dateKey a) (dateKey b)⟩

instance : IsTrans (List Char) sheetLE :=
  ⟨fun _ _ _ h1 h2 => dateLE_trans h1 h2⟩

theorem isDig_digCh {n : Nat} (h : n < 10) : isDig (digCh n) = true := by
  interval_cases n <;> decide

theorem digVal_digCh {n : Nat} (h : n < 10) : digVal (digCh n) = n := by
  interval_cases n <;> decide

theorem digCh_beq_dot {n : Nat} (h : n < 10) : (digCh n == '.') = false := by
  interval_cases n <;> decide

theorem dayParses_dd {d1 d2 : Nat} (h1 : d1 < 10) (h2 : d2 < 10) (r : List Char) :
    dayParses (digCh d1 :: digCh d2 :: r) =
      (if 1 ≤ 10 * d1 + d2 ∧ 10 * d1 + d2 ≤ 31 then [(10 * d1 + d2, r)] else []) ++
      (if 1 ≤ d1 then [(d1, digCh d2 :: r)] else []) := by
  interval_cases d1 <;> interval_cases d2 <;> rfl

theorem monthParses_dd {m1 m2 : Nat} (h1 : m1 < 10) (h2 : m2 < 10) (r : List Char) :
    monthParses (digCh m1 :: digCh m2 :: r) =
      (if 1 ≤ 10 * m1 + m2 ∧ 10 * m1 + m2 ≤ 12 then [(10 * m1 + m2, r)] else []) ++
      (if 1 ≤ m1 then [(m1, digCh m2 :: r)] else []) := by
  interval_cases m1 <;> interval_cases m2 <;> rfl

theorem parseYear_digits {y1 y2 y3 y4 : Nat}
    (h1 : y1 < 10) (h2 : y2 < 10) (h3 : y3 < 10) (h4 : y4 < 10) :
    parseYear [digCh y1, digCh y2, digCh y3, digCh y4] =
      some (y1 * 1000 + y2 * 100 + y3 * 10 + y4, []) := by
  simp [parseYear, isDig_digCh, digVal_digCh, h1, h2, h3, h4]

theorem yearEndParse_digits {y1 y2 y3 y4 : Nat}
    (h1 : y1 < 10) (h2 : y2 < 10) (h3 : y3 < 10) (h4 : y4 < 10) :
    yearEndParse [digCh y1, digCh y2, digCh y3, digCh y4] =
      [y1 * 1000 + y2 * 100 + y3 * 10 + y4] := by
  simp [yearEndParse, parseYear_digits h1 h2 h3 h4]

theorem monthRest_shape {m1 m2 y1 y2 y3 y4 : Nat}
    (hm1 : m1 < 10) (hm2 : m2 < 10)
    (h1 : y1 < 10) (h2 : y2 < 10) (h3 : y3 < 10) (h4 : y4 < 10) :
    monthRestParses
        ('.' :: digCh m1 :: digCh m2 :: '.' :: [digCh y1, digCh y2, digCh y3, digCh y4]) =
      if 1 ≤ 10 * m1 + m2 ∧ 10 * m1 + m2 ≤ 12 then
        [(10 * m1 + m2, y1 * 1000 + y2 * 100 + y3 * 10 + y4)]
      else [] := by
  have hB : (if 1 ≤ m1 then
      [(m1, digCh m2 :: '.' :: [digCh y1, digCh y2, digCh y3, digCh y4])] else
      []).flatMap afterMonth = [] := by
    by_cases hm : 1 ≤ m1 <;> simp [hm, afterMonth, digCh_beq_dot hm2]
  simp only [monthRestParses, beq_self_eq_true, if_true]
  rw [monthParses_dd hm1 hm2, List.flatMap_append, hB, List.append_nil]
  by_cases hc : 1 ≤ 10 * m1 + m2 ∧ 10 * m1 + m2 ≤ 12
  · simp [hc, afterMonth, yearEndParse_digits h1 h2 h3 h4]
  · simp [hc]

theorem fullParses_shape {d1 d2 m1 m2 y1 y2 y3 y4 : Nat}
    (hd1 : d1 < 10) (hd2 : d2 < 10) (hm1 : m1 < 10) (hm2 : m2 < 10)
    (h1 : y1 < 10) (h2 : y2 < 10) (h3 : y3 < 10) (h4 : y4 < 10) :
    fullParses (dateStrOf d1 d2 m1 m2 y1 y2 y3 y4) =
      if (1 ≤ 10 * d1 + d2 ∧ 10 * d1 + d2 ≤ 31) ∧
          (1 ≤ 10 * m1 + m2 ∧ 10 * m1 + m2 ≤ 12) then
        [(10 * d1 + d2, 10 * m1 + m2, y1 * 1000 + y2 * 100 + y3 * 10 + y4)]
      else [] := by
  have hB : (if 1 ≤ d1 then
      [(d1, digCh d2 :: '.' :: digCh m1 :: digCh m2 :: '.' ::
        [digCh y1, digCh y2, digCh y3, digCh y4])] else
      []).flatMap
        (fun p => (monthRestParses p.2).map fun q => (p.1, q.1, q.2)) = [] := by
    by_cases hd : 1 ≤ d1
    · rw [if_pos hd]
      simp only [List.flatMap_cons, List.flatMap_nil, List.append_nil, monthRestParses]
      rw [digCh_beq_dot hd2]
      simp
    · rw [if_neg hd]
      rfl
  show fullParses (digCh d1 :: digCh d2 :: '.' :: digCh m1 :: digCh m2 :: '.' ::
    [digCh y1, digCh y2, digCh y3, digCh y4]) = _
  unfold fullParses
  rw [dayParses_dd hd1 hd2, List.flatMap_append, hB, List.append_nil]
  by_cases hday : 1 ≤ 10 * d1 + d2 ∧ 10 * d1 + d2 ≤ 31
  · rw [if_pos hday]
    simp only [List.flatMap_cons, List.flatMap_nil, List.append_nil]
    rw [monthRest_shape hm1 hm2 h1 h2 h3 h4]
    by_cases hmon : 1 ≤ 10 * m1 + m2 ∧ 10 * m1 + m2 ≤ 12
    · simp [hday, hmon]
    · simp [hday, hmon]
  · simp [hday]

theorem daysInMonth_le_31 (y m : Nat) : daysInMonth y m ≤ 31 := by
  unfold daysInMonth
  split_ifs <;> omega

theorem parse_date_shape {d1 d2 m1 m2 y1 y2 y3 y4 : Nat}
    (hd1 : d1 < 10) (hd2 : d2 < 10) (hm1 : m1 < 10) (hm2 : m2 < 10)
    (h1 : y1 < 10) (h2 : y2 < 10) (h3 : y3 < 10) (h4 : y4 < 10) :
    parse_date (dateStrOf d1 d2 m1 m2 y1 y2 y3 y4) =
      if 1 ≤ y1 * 1000 + y2 * 100 + y3 * 10 + y4 ∧
          1 ≤ 10 * m1 + m2 ∧ 10 * m1 + m2 ≤ 12 ∧ 1 ≤ 10 * d1 + d2 ∧
          10 * d1 + d2 ≤ daysInMonth (y1 * 1000 + y2 * 100 + y3 * 10 + y4) (10 * m1 + m2) then
        some ⟨y1 * 1000 + y2 * 100 + y3 * 10 + y4, 10 * m1 + m2, 10 * d1 + d2⟩
      else none := by
  have hY : y1 * 1000 + y2 * 100 + y3 * 10 + y4 ≤ 9999 := by omega
  have hdim := daysInMonth_le_31 (y1 * 1000 + y2 * 100 + y3 * 10 + y4) (10 * m1 + m2)
  unfold parse_date
  rw [fullParses_shape hd1 hd2 hm1 hm2 h1 h2 h3 h4]
  by_cases hc : (1 ≤ 10 * d1 + d2 ∧ 10 * d1 + d2 ≤ 31) ∧
      (1 ≤ 10 * m1 + m2 ∧ 10 * m1 + m2 ≤ 12)
  · rw [if_pos hc]
    show mkDatetime _ _ _ = _
    unfold mkDatetime
    split_ifs with hl hr hr
    · rfl
    · exfalso
      simp only [Bool.and_eq_true, decide_eq_true_eq] at hl
      exact absurd ⟨by omega, by omega, by omega, by omega, by omega⟩ hr
    · exfalso
      apply hl
      simp only [Bool.and_eq_true, decide_eq_true_eq]
      refine ⟨⟨⟨⟨⟨by omega, by omega⟩, by omega⟩, by omega⟩, by omega⟩, by omega⟩
    · rfl
  · rw [if_neg hc]
    have hneg : ¬(1 ≤ y1 * 1000 + y2 * 100 + y3 * 10 + y4 ∧
        1 ≤ 10 * m1 + m2 ∧ 10 * m1 + m2 ≤ 12 ∧ 1 ≤ 10 * d1 + d2 ∧
        10 * d1 + d2 ≤ daysInMonth (y1 * 1000 + y2 * 100 + y3 * 10 + y4) (10 * m1 + m2)) := by
      intro hcon
      exact hc ⟨⟨by omega, by omega⟩, by omega, by omega⟩
    rw [if_neg hneg]

theorem pad2_digits {a b : Nat} (ha : a < 10) (hb : b < 10) :
    pad2 (10 * a + b) = [digCh a, digCh b] := by
  unfold pad2
  by_cases h : 10 * a + b < 10
  · have ha0 : a = 0 := by omega
    subst ha0
    rw [if_pos h]
    have hz : ('0' : Char) = digCh 0 := by decide
    have hb' : 10 * 0 + b = b := by omega
    rw [hb', hz]
  · rw [if_neg h]
    have e1 : (10 * a + b) / 10 = a := by omega
    have e2 : (10 * a + b) % 10 = b := by omega
    rw [e1, e2]

theorem formatYear_digits {y1 y2 y3 y4 : Nat}
    (h1 : y1 < 10) (h2 : y2 < 10) (h3 : y3 < 10) (h4 : y4 < 10) (hy : 1 ≤ y1) :
    formatYear (y1 * 1000 + y2 * 100 + y3 * 10 + y4) =
      [digCh y1, digCh y2, digCh y3, digCh y4] := by
  unfold formatYear
  rw [if_pos (by omega : 1000 ≤ y1 * 1000 + y2 * 100 + y3 * 10 + y4)]
  have e1 : (y1 * 1000 + y2 * 100 + y3 * 10 + y4) / 1000 = y1 := by omega
  have e2 : (y1 * 1000 + y2 * 100 + y3 * 10 + y4) / 100 % 10 = y2 := by omega
  have e3 : (y1 * 1000 + y2 * 100 + y3 * 10 + y4) / 10 % 10 = y3 := by omega
  have e4 : (y1 * 1000 + y2 * 100 + y3 * 10 + y4) % 10 = y4 := by omega
  rw [e1, e2, e3, e4]

/-- C6 (amended): for shaped `DD.MM.YYYY` strings whose day and month are
legal calendar values and whose year is at least 1000, parsing succeeds and
re-formatting returns the identical string; and for shaped strings whose day
or month is out of calendar range (for example month 13), parsing fails with
a parse error. The amendment restricts the round trip to years at or above
1000: year 0000 is rejected by the datetime constructor, and for years 1-999
the host `strftime('%Y')` renders fewer than four digits, so the round trip
fails (see the counterexample). -/
theorem c6_parse_format (d1 d2 m1 m2 y1 y2 y3 y4 : Nat)
    (hd1 : d1 < 10) (hd2 : d2 < 10) (hm1 : m1 < 10) (hm2 : m2 < 10)
    (h1 : y1 < 10) (h2 : y2 < 10) (h3 : y3 < 10) (h4 : y4 < 10)
    (hM : 1 ≤ 10 * m1 + m2 ∧ 10 * m1 + m2 ≤ 12)
    (hD : 1 ≤ 10 * d1 + d2 ∧
      10 * d1 + d2 ≤ daysInMonth (y1 * 1000 + y2 * 100 + y3 * 10 + y4) (10 * m1 + m2))
    (hY : 1 ≤ y1) :
    parse_date (dateStrOf d1 d2 m1 m2 y1 y2 y3 y4) =
      some ⟨y1 * 1000 + y2 * 100 + y3 * 10 + y4, 10 * m1 + m2, 10 * d1 + d2⟩ ∧
    format_date ⟨y1 * 1000 + y2 * 100 + y3 * 10 + y4, 10 * m1 + m2, 10 * d1 + d2⟩ =
      dateStrOf d1 d2 m1 m2 y1 y2 y3 y4 ∧
    ∀ e1 e2 f1 f2 z1 z2 z3 z4 : Nat,
      e1 < 10 → e2 < 10 → f1 < 10 → f2 < 10 →
      z1 < 10 → z2 < 10 → z3 < 10 → z4 < 10 →
      (10 * f1 + f2 = 0 ∨ 10 * f1 + f2 > 12 ∨ 10 * e1 + e2 = 0 ∨
        10 * e1 + e2 > daysInMonth (z1 * 1000 + z2 * 100 + z3 * 10 + z4) (10 * f1 + f2)) →
      parse_date (dateStrOf e1 e2 f1 f2 z1 z2 z3 z4) = none := by
  refine ⟨?_, ?_, ?_⟩
  · rw [parse_date_shape hd1 hd2 hm1 hm2 h1 h2 h3 h4]
    rw [if_pos ⟨by omega, hM.1, hM.2, hD.1, hD.2⟩]
  · show pad2 _ ++ '.' :: pad2 _ ++ '.' :: formatYear _ = _
    rw [pad2_digits hd1 hd2, pad2_digits hm1 hm2, formatYear_digits h1 h2 h3 h4 hY]
    rfl
  · intro e1 e2 f1 f2 z1 z2 z3 z4 he1 he2 hf1 hf2 hz1 hz2 hz3 hz4 hbad
    rw [parse_date_shape he1 he2 hf1 hf2 hz1 hz2 hz3 hz4]
    rw [if_neg]
    intro hcon
    omega

/-- C6 witness: `"07.03.2024"` parses to 7 March 2024 and formats back to the
identical string, while `"01.13.2024"` (month 13) fails to parse. -/
theorem c6_parse_format_witness :
    (parse_date (dateStrOf 0 7 0 3 2 0 2 4) = some ⟨2024, 3, 7⟩ ∧
      format_date ⟨2024, 3, 7⟩ = dateStrOf 0 7 0 3 2 0 2 4) ∧
    parse_date (dateStrOf 0 1 1 3 2 0 2 4) = none := by
  have h := c6_parse_format 0 7 0 3 2 0 2 4 (by omega) (by omega) (by omega) (by omega)
    (by omega) (by omega) (by omega) (by omega) (by decide) (by decide) (by omega)
  exact ⟨⟨h.1, h.2.1⟩,
    h.2.2 0 1 1 3 2 0 2 4 (by omega) (by omega) (by omega) (by omega)
      (by omega) (by omega) (by omega) (by omega) (by decide)⟩

/-- C6 counterexample: `"01.01.0024"` is a shaped `DD.MM.YYYY` string with
legal day and month values, but formatting its parse yields `"01.01.24"` —
the host `strftime('%Y')` does not zero-pad years below 1000 — so
`format(parse(s))` differs from `s` and the round-trip claim fails as
stated. -/
theorem c6_counterexample :
    exactDatePattern ("01.01.0024".toList) = true ∧
    ((1 : Nat) ≤ 12 ∧ (1 : Nat) ≤ daysInMonth 24 1) ∧
    parse_date ("01.01.0024".toList) = some ⟨24, 1, 1⟩ ∧
    format_date ⟨24, 1, 1⟩ = "01.01.24".toList ∧
    "01.01.24".toList ≠ "01.01.0024".toList := by
  decide

theorem matchesAt_lit (name : List Char) : ∀ s : List Char,
    matchesAt (name.map PatTok.lit) s = (lowStr name).isPrefixOf (lowStr s) := by
  induction name with
  | nil => intro s; cases s <;> simp [matchesAt, lowStr, List.isPrefixOf]
  | cons c cs ih =>
    intro s
    cases s with
    | nil => simp [matchesAt, lowStr, List.isPrefixOf]
    | cons d ds => simp [matchesAt, lowStr, List.isPrefixOf, tokMatch, ih ds]

theorem reSearch_lit (name : List Char) : ∀ s : List Char,
    reSearch (name.map PatTok.lit) s = containsSub (lowStr name) (lowStr s) := by
  intro s
  induction s with
  | nil =>
    cases name <;>
      simp [reSearch, containsSub, matchesAt, lowStr, List.isPrefixOf, List.isEmpty]
  | cons c cs ih =>
    simp only [reSearch, containsSub, matchesAt_lit, ih, lowStr, List.map_cons]

theorem regexMetaChar_dot : regexMetaChar '.' = true := by decide

theorem compilePat_lit (name : List Char)
    (h : name.all (fun c => !regexMetaChar c) = true) :
    compilePat name = name.map PatTok.lit := by
  induction name with
  | nil => rfl
  | cons c cs ih =>
    simp only [List.all_cons, Bool.and_eq_true, Bool.not_eq_true'] at h
    have hc : (c == '.') = false := by
      cases hdot : (c == '.')
      · rfl
      · have hce : c = '.' := by simpa using hdot
        subst hce
        exact absurd h.1 (by decide)
    simp only [compilePat, List.map_cons, hc, Bool.false_eq_true, if_false]
    exact congrArg _ (ih h.2)

theorem cellMatches_eq_substrCI (name cell : List Char)
    (h : name.all (fun c => !regexMetaChar c) = true) :
    cellMatches name cell = substrCI name cell := by
  unfold cellMatches substrCI
  rw [compilePat_lit name h, reSearch_lit]

/-- C3 (amended): the row-keeping test is a case-insensitive regex search, not
a plain substring test; for requested names containing no regex
metacharacter the two coincide, so the spec's substring description is
correct exactly on that fragment. -/
theorem c3_regex_substring_agree (name cell : List Char)
    (h : name.all (fun c => !regexMetaChar c) = true) :
    cellMatches name cell = substrCI name cell :=
  cellMatches_eq_substrCI name cell h

/-- C3 witness: the name `"john"` is metacharacter-free, so the code's test
agrees with plain case-insensitive substring containment on `"Big John"`,
and that row is indeed kept. -/
theorem c3_regex_substring_agree_witness :
    (("john".toList).all (fun c => !regexMetaChar c) = true) ∧
    cellMatches ("john".toList) ("Big John".toList) =
      substrCI ("john".toList) ("Big John".toList) ∧
    cellMatches ("john".toList) ("Big John".toList) = true :=
  ⟨by decide, c3_regex_substring_agree ("john".toList) ("Big John".toList) (by decide),
    by decide⟩

/-- C3 counterexample: for the requested name `"a.c"` the code keeps a row
whose supervisor value is `"abc"` (the dot is a regex wildcard), although
`"a.c"` is not a plain substring of `"abc"`; so the keep-test is not plain
substring containment for every requested name. -/
theorem c3_counterexample :
    cellMatches ("a.c".toList) ("abc".toList) = true ∧
    substrCI ("a.c".toList) ("abc".toList) = false := by
  decide

theorem find?_first (p : List Char → Bool) :
    ∀ (l : List (List Char)) (h : List Char),
    l.find? p = some h ↔
      ∃ pre post, l = pre ++ h :: post ∧ (∀ x ∈ pre, p x = false) ∧ p h = true := by
  intro l
  induction l with
  | nil => simp
  | cons a t ih =>
    intro h
    by_cases ha : p a = true
    · rw [List.find?_cons_of_pos _ ha]
      constructor
      · rintro hh
        injection hh with hh
        exact ⟨[], t, by simp [hh], by simp, hh ▸ ha⟩
      · rintro ⟨pre, post, heq, hpre, hh⟩
        cases pre with
        | nil =>
          simp only [List.nil_append, List.cons.injEq] at heq
          rw [heq.1]
        | cons b bs =>
          simp only [List.cons_append, List.cons.injEq] at heq
          have := hpre b (by simp)
          rw [← heq.1] at this
          rw [this] at ha
          exact absurd ha (by simp)
    · have ha' : p a = false := by simpa using ha
      rw [List.find?_cons_of_neg _ (by simp [ha'])]
      rw [ih h]
      constructor
      · rintro ⟨pre, post, heq, hpre, hh⟩
        refine ⟨a :: pre, post, by simp [heq], ?_, hh⟩
        intro x hx
        rcases List.mem_cons.mp hx with rfl | hx
        · exact ha'
        · exact hpre x hx
      · rintro ⟨pre, post, heq, hpre, hh⟩
        cases pre with
        | nil =>
          simp only [List.nil_append, List.cons.injEq] at heq
          rw [heq.1] at ha'
          rw [ha'] at hh
          exact absurd hh (by simp)
        | cons b bs =>
          simp only [List.cons_append, List.cons.injEq] at heq
          refine ⟨bs, post, heq.2, ?_, hh⟩
          intro x hx
          exact hpre x (by simp [hx])

/-- C5: the supervisor-column resolver returns the first header (in original
column order) whose lower-cased text contains one of the four vocabulary
substrings, returns nothing when no header qualifies (no fallback), and the
headers `"Team_Leader"` and `"Supervisor Name"` both qualify. -/
theorem c5_resolver :
    (∀ (headers : List (List Char)) (h : List Char),
      supervisorHeader headers = some h ↔
        ∃ pre post, headers = pre ++ h :: post ∧
          (∀ x ∈ pre, headerMatches x = false) ∧ headerMatches h = true) ∧
    (∀ headers : List (List Char),
      supervisorHeader headers = none ↔ ∀ h ∈ headers, headerMatches h = false) ∧
    headerMatches ("Team_Leader".toList) = true ∧
    headerMatches ("Supervisor Name".toList) = true := by
  refine ⟨fun headers h => find?_first headerMatches headers h, fun headers => ?_,
    by decide, by decide⟩
  show List.find? headerMatches headers = none ↔ _
  rw [List.find?_eq_none]
  constructor
  · intro hnone x hx
    simpa using hnone x hx
  · intro hall x hx
    simp [hall x hx]

/-- C2 (amended): the sheet classifier accepts exactly the strings that match
`\d{2}\.\d{2}\.\d{4}` as a whole — two digits, dot, two digits, dot, four
digits — either on the whole string or on the whole string minus a single
trailing newline (Python's `$` matches just before one final newline, so a
name with one trailing `'\n'` is also accepted; any other surrounding
character is rejected). -/
theorem c2_classifier :
    (∀ s : List Char, is_date_sheet s = true ↔
      (exactDatePattern s = true ∨ ∃ t, s = t ++ ['\n'] ∧ exactDatePattern t = true)) ∧
    (∀ s : List Char, exactDatePattern s = true ↔
      ∃ a b m1 m2 y1 y2 y3 y4,
        s = [a, b, '.', m1, m2, '.', y1, y2, y3, y4] ∧
        isDig a = true ∧ isDig b = true ∧ isDig m1 = true ∧ isDig m2 = true ∧
        isDig y1 = true ∧ isDig y2 = true ∧ isDig y3 = true ∧ isDig y4 = true) := by
  constructor
  · intro s
    unfold is_date_sheet
    simp only [Bool.or_eq_true, Bool.and_eq_true, beq_iff_eq]
    constructor
    · rintro (hm | ⟨hlast, hdrop⟩)
      · exact Or.inl hm
      · refine Or.inr ⟨s.dropLast, ?_, hdrop⟩
        have hne : s ≠ [] := by
          intro he
          rw [he] at hlast
          simp at hlast
        have hgl := List.getLast?_eq_getLast s hne
        rw [hgl] at hlast
        have hlast' : s.getLast hne = '\n' := Option.some.inj hlast
        conv_lhs => rw [← List.dropLast_append_getLast hne]
        rw [hlast']
    · rintro (hm | ⟨t, rfl, ht⟩)
      · exact Or.inl hm
      · refine Or.inr ⟨?_, ?_⟩
        · rw [List.getLast?_concat]
        · rw [List.dropLast_concat]
          exact ht
  · intro s
    constructor
    · intro hp
      rcases s with _ | ⟨a, _ | ⟨b, _ | ⟨c, _ | ⟨d, _ | ⟨e, _ | ⟨f, _ | ⟨g, _ | ⟨h8, _ |
        ⟨i, _ | ⟨j, _ | ⟨k, t⟩⟩⟩⟩⟩⟩⟩⟩⟩⟩⟩ <;>
        simp only [exactDatePattern, Bool.and_eq_true, beq_iff_eq, and_assoc] at hp
      all_goals try exact absurd hp Bool.false_ne_true
      obtain ⟨h1, h2, hc, h3, h4, hf, h5, h6, h7, hh⟩ := hp
      subst hc
      subst hf
      exact ⟨a, b, d, e, g, h8, i, j, rfl, h1, h2, h3, h4, h5, h6, h7, hh⟩
    · rintro ⟨a, b, m1, m2, y1, y2, y3, y4, rfl, h1, h2, h3, h4, h5, h6, h7, h8⟩
      simp [exactDatePattern, h1, h2, h3, h4, h5, h6, h7, h8]

/-- C2 counterexample: the classifier accepts `"01.01.2024\n"`, which does not
match the pattern as a whole string (it has a trailing newline), so the
claim's "no extra characters before or after (including trailing whitespace
or newlines)" fails on the code. -/
theorem c2_counterexample :
    is_date_sheet ("01.01.2024\n".toList) = true ∧
    exactDatePattern ("01.01.2024\n".toList) = false := by
  decide

theorem mem_supervisorsFold {wb : Workbook} {x : List Char} :
    ∀ (names : List (List Char)) (acc : Finset (List Char)),
    x ∈ supervisorsFold wb names acc ↔
      x ∈ acc ∨ ∃ n ∈ names, x ∈ sheetSupervisorsByName wb n := by
  intro names
  induction names with
  | nil => intro acc; simp [supervisorsFold]
  | cons a t ih =>
    intro acc
    show x ∈ supervisorsFold wb t (acc ∪ sheetSupervisorsByName wb a) ↔ _
    rw [ih]
    simp only [Finset.mem_union, List.mem_cons]
    constructor
    · rintro ((h | h) | ⟨n, hn, hx⟩)
      · exact Or.inl h
      · exact Or.inr ⟨a, Or.inl rfl, h⟩
      · exact Or.inr ⟨n, Or.inr hn, hx⟩
    · rintro (h | ⟨n, rfl | hn, hx⟩)
      · exact Or.inl (Or.inl h)
      · exact Or.inl (Or.inr hx)
      · exact Or.inr ⟨n, hn, hx⟩

theorem mem_sortSheets {names : List (List Char)} {n : List Char} :
    n ∈ sortSheets names ↔ n ∈ names :=
  (List.perm_insertionSort sheetLE names).mem_iff

theorem nodup_sortSheets {names : List (List Char)} (h : names.Nodup) :
    (sortSheets names).Nodup :=
  ((List.perm_insertionSort sheetLE names).nodup_iff).mpr h

theorem sorted_sortSheets (names : List (List Char)) :
    (sortSheets names).Pairwise sheetLE :=
  List.sorted_insertionSort sheetLE names

theorem process_workbook_success {st st' : ProcState} {wb : Workbook}
    (h : process_workbook st wb = (.success, st')) :
    ((sheetNamesOf wb).filter is_date_sheet ≠ []) ∧
    (∀ n ∈ (sheetNamesOf wb).filter is_date_sheet, (parse_date n).isSome = true) ∧
    st'.date_sheets = sortSheets ((sheetNamesOf wb).filter is_date_sheet) ∧
    st'.team_leaders =
      supervisorsFold wb (sortSheets ((sheetNamesOf wb).filter is_date_sheet))
        st.team_leaders ∧
    st'.team_leaders ≠ ∅ := by
  simp only [process_workbook] at h
  split_ifs at h with h1 h2 h3
  · simp at h
  · simp at h
  · simp only [Prod.mk.injEq, true_and] at h
    subst h
    refine ⟨by simpa [List.isEmpty_iff] using h1, List.all_eq_true.mp h2, rfl, rfl, h3⟩
  · simp at h

theorem find?_sheet_eq {l : List Sheet} (hnd : (l.map Sheet.name).Nodup)
    {s : List Char} {sh : Sheet} :
    (l.find? fun x => x.name == s) = some sh ↔ sh ∈ l ∧ sh.name = s := by
  induction l with
  | nil => simp
  | cons a t ih =>
    simp only [List.map_cons, List.nodup_cons] at hnd
    by_cases ha : (a.name == s) = true
    · rw [show List.find? (fun x => x.name == s) (a :: t) = some a from
        List.find?_cons_of_pos _ ha]
      have has : a.name = s := by simpa using ha
      constructor
      · intro hsome
        injection hsome with hsome
        subst hsome
        exact ⟨List.mem_cons_self a t, has⟩
      · rintro ⟨hmem, hname⟩
        rcases List.mem_cons.mp hmem with rfl | hmem
        · rfl
        · exfalso
          apply hnd.1
          rw [has, ← hname]
          exact List.mem_map_of_mem Sheet.name hmem
    · rw [show List.find? (fun x => x.name == s) (a :: t) =
          List.find? (fun x => x.name == s) t from
        List.find?_cons_of_neg _ (by simpa using ha)]
      rw [ih hnd.2]
      constructor
      · rintro ⟨hm, hn⟩
        exact ⟨List.mem_cons_of_mem _ hm, hn⟩
      · rintro ⟨hm, hn⟩
        rcases List.mem_cons.mp hm with rfl | hm
        · exact absurd (by simp [hn] : (sh.name == s) = true) ha
        · exact ⟨hm, hn⟩

theorem mem_sheetsInRange {names : List (List Char)} {sd ed : Date} {n : List Char} :
    n ∈ sheetsInRange names sd ed ↔
      n ∈ names ∧ ∃ dt, parse_date n = some dt ∧ inRange sd ed dt = true := by
  unfold sheetsInRange
  rw [List.mem_filter]
  cases hp : parse_date n <;> simp [hp]

theorem mem_sheetFilteredRows {wb : Workbook} {name s : List Char} {r : ResultRow} :
    r ∈ sheetFilteredRows wb name s ↔
      ∃ sh, readSheet wb s = some sh ∧
        ∃ idx, findTeamLeaderCol sh.headers = some idx ∧
          ∃ row ∈ sh.rows, cellMatches name (cellStr (row.getD idx none)) = true ∧
            r = ⟨s, row⟩ := by
  unfold sheetFilteredRows
  cases hrd : readSheet wb s with
  | none => simp
  | some sh =>
    cases hcol : findTeamLeaderCol sh.headers with
    | none =>
      simp only [hcol]
      simp [hcol]
    | some idx =>
      simp only [hcol]
      simp only [List.mem_map, List.mem_filter]
      constructor
      · rintro ⟨row, ⟨hrow, hm⟩, rfl⟩
        exact ⟨sh, rfl, idx, hcol, row, hrow, hm, rfl⟩
      · rintro ⟨sh', hsh', idx', hidx', row, hrow, hm, rfl⟩
        injection hsh' with hsh'
        subst hsh'
        rw [hcol] at hidx'
        injection hidx' with hidx'
        subst hidx'
        exact ⟨row, ⟨hrow, hm⟩, rfl⟩

theorem source_of_mem {wb : Workbook} {name s : List Char} {r : ResultRow}
    (h : r ∈ sheetFilteredRows wb name s) : r.source_sheet = s := by
  obtain ⟨sh, -, idx, -, row, -, -, rfl⟩ := mem_sheetFilteredRows.mp h
  rfl

theorem filter_data_run {st : ProcState} {wb : Workbook} {name startS endS : List Char}
    {sd ed : Date}
    (hsd : parse_date startS = some sd) (hed : parse_date endS = some ed)
    (hall : st.date_sheets.all (fun n => (parse_date n).isSome) = true) :
    (filter_data st wb name startS endS).2 =
      (sheetsInRange st.date_sheets sd ed).flatMap (sheetFilteredRows wb name) ∧
    (filter_data st wb name startS endS).1 ≠ .errorNote ∧
    ((sheetsInRange st.date_sheets sd ed).flatMap (sheetFilteredRows wb name) = [] →
      (filter_data st wb name startS endS).1.isError = false) := by
  unfold filter_data
  rw [hsd, hed]
  dsimp only
  rw [if_pos hall]
  by_cases h1 : (sheetsInRange st.date_sheets sd ed).isEmpty
  · rw [if_pos h1]
    have he : sheetsInRange st.date_sheets sd ed = [] := List.isEmpty_iff.mp h1
    simp [he, FilterNote.isError]
  · rw [if_neg h1]
    by_cases h2 : ((sheetsInRange st.date_sheets sd ed).flatMap (sheetFilteredRows wb name)).isEmpty
    · rw [if_pos h2]
      have he := List.isEmpty_iff.mp h2
      simp [he, FilterNote.isError]
    · rw [if_neg h2]
      exact ⟨rfl, by simp, fun hh => absurd hh (by simpa [List.isEmpty_iff] using h2)⟩

theorem pairwise_all_eq {α : Type} {R : α → α → Prop} (l : List α) (s : α)
    (h : ∀ x ∈ l, x = s) (hs : R s s) : l.Pairwise R := by
  induction l with
  | nil => exact List.Pairwise.nil
  | cons a t ih =>
    refine List.Pairwise.cons ?_ (ih fun x hx => h x (List.mem_cons_of_mem _ hx))
    intro y hy
    rw [h a (List.mem_cons_self a t), h y (List.mem_cons_of_mem _ hy)]
    exact hs

theorem flatMap_filter_block {fs : List (List Char)} {f : List Char → List ResultRow}
    (hnd : fs.Nodup) (hsrc : ∀ s r, r ∈ f s → r.source_sheet = s) (s : List Char) :
    (fs.flatMap f).filter (fun r => r.source_sheet == s) =
      if s ∈ fs then f s else [] := by
  induction fs with
  | nil => simp
  | cons a t ih =>
    have hnd' := List.nodup_cons.mp hnd
    rw [List.flatMap_cons, List.filter_append, ih hnd'.2]
    by_cases has : s = a
    · subst has
      have h1 : (f s).filter (fun r => r.source_sheet == s) = f s :=
        List.filter_eq_self.mpr fun r hr => by simp [hsrc s r hr]
      rw [h1, if_neg hnd'.1, if_pos (List.mem_cons_self s t)]
      simp
    · have h0 : (f a).filter (fun r => r.source_sheet == s) = [] :=
        List.filter_eq_nil_iff.mpr fun r hr => by
          simp only [hsrc a r hr, beq_iff_eq]
          exact Ne.symm has
      rw [h0, List.nil_append]
      by_cases hst : s ∈ t
      · rw [if_pos hst, if_pos (List.mem_cons_of_mem _ hst)]
      · rw [if_neg hst, if_neg (fun hc => (List.mem_cons.mp hc).elim has hst)]

/-- C1 (amended): in the desktop processor, after a successful
`process_workbook`, the rows `filter_data` returns are grouped by source
sheet in ascending sheet-date order regardless of the sheets' insertion
order, and each sheet's group is exactly that sheet's surviving rows in
intra-sheet order. In the web processor the groups instead follow the
workbook's insertion order (see the counterexample). -/
theorem c1_order (wb : Workbook) (st' : ProcState) (name startS endS : List Char)
    (sd ed : Date)
    (hproc : process_workbook initState wb = (.success, st'))
    (hnodup : (sheetNamesOf wb).Nodup)
    (hsd : parse_date startS = some sd) (hed : parse_date endS = some ed) :
    ((filter_data st' wb name startS endS).2.map ResultRow.source_sheet).Pairwise sheetLE ∧
    ∀ s : List Char,
      (filter_data st' wb name startS endS).2.filter (fun r => r.source_sheet == s) =
        if s ∈ sheetsInRange st'.date_sheets sd ed then sheetFilteredRows wb name s
        else [] := by
  obtain ⟨hne, hall, hds, htl, htlne⟩ := process_workbook_success hproc
  have hall' : st'.date_sheets.all (fun n => (parse_date n).isSome) = true := by
    rw [List.all_eq_true]
    intro n hn
    rw [hds] at hn
    exact hall n (mem_sortSheets.mp hn)
  obtain ⟨hsnd, -, -⟩ := @filter_data_run st' wb name startS endS sd ed hsd hed hall'
  have hsorted : st'.date_sheets.Pairwise sheetLE := by
    rw [hds]
    exact sorted_sortSheets _
  have hpfs : (sheetsInRange st'.date_sheets sd ed).Pairwise sheetLE :=
    List.Pairwise.sublist (List.filter_sublist _) hsorted
  constructor
  · rw [hsnd, List.map_flatMap]
    have hflt : (sheetsInRange st'.date_sheets sd ed).flatMap
        (fun a => (sheetFilteredRows wb name a).map ResultRow.source_sheet) =
        ((sheetsInRange st'.date_sheets sd ed).map
          (fun a => (sheetFilteredRows wb name a).map ResultRow.source_sheet)).flatten := rfl
    rw [hflt, List.pairwise_flatten]
    constructor
    · intro l hl
      rw [List.mem_map] at hl
      obtain ⟨s, hs, rfl⟩ := hl
      refine pairwise_all_eq _ s ?_ (dateLE_refl _)
      intro x hx
      rw [List.mem_map] at hx
      obtain ⟨r, hr, rfl⟩ := hx
      exact source_of_mem hr
    · rw [List.pairwise_map]
      refine hpfs.imp ?_
      intro a b hab x hx y hy
      rw [List.mem_map] at hx hy
      obtain ⟨r, hr, rfl⟩ := hx
      obtain ⟨r', hr', rfl⟩ := hy
      show sheetLE r.source_sheet r'.source_sheet
      rw [source_of_mem hr, source_of_mem hr']
      exact hab
  · intro s
    rw [hsnd]
    apply flatMap_filter_block
    · have hnd : st'.date_sheets.Nodup := by
        rw [hds]
        exact nodup_sortSheets (hnodup.filter _)
      exact hnd.filter _
    · intro s' r hr
      exact source_of_mem hr

/-- C1 witness: on a workbook whose date sheets were inserted in the order
`01.01.2024`, `03.01.2024`, `02.01.2024`, the desktop result's source-sheet
sequence is ascending by date. -/
theorem c1_order_witness :
    ((filter_data stOrd wbOrd ("John".toList) ("01.01.2024".toList)
      ("03.01.2024".toList)).2.map ResultRow.source_sheet).Pairwise sheetLE :=
  (c1_order wbOrd stOrd ("John".toList) ("01.01.2024".toList) ("03.01.2024".toList)
    ⟨2024, 1, 1⟩ ⟨2024, 1, 3⟩ (by decide) (by decide) (by decide) (by decide)).1

/-- C1 counterexample: the web processor walks sheets in insertion order, so
for sheets inserted as `01.01.2024`, `03.01.2024`, `02.01.2024` and the
range `[01.01.2024, 03.01.2024]` the result's `Source_Sheet` sequence is
`01.01.2024, 03.01.2024, 02.01.2024`, not the ascending sequence claimed. -/
theorem c1_counterexample :
    ((filter_data_web wbOrd ("John".toList) ("01.01.2024".toList)
      ("03.01.2024".toList)).2.map ResultRow.source_sheet) =
      ["01.01.2024".toList, "03.01.2024".toList, "02.01.2024".toList] ∧
    ["01.01.2024".toList, "03.01.2024".toList, "02.01.2024".toList] ≠
      ["01.01.2024".toList, "02.01.2024".toList, "03.01.2024".toList] := by
  decide

/-- C4 (amended): after a successful `process_workbook`, a row appears in the
desktop filtered result if and only if its sheet is a date sheet whose
parsed date lies in the inclusive range, the sheet has a resolvable
supervisor column, and the row's supervisor field case-insensitively
contains the requested name as a substring; sheets without a resolvable
column contribute nothing and cause no error, and every result row's
`Source_Sheet` equals its originating sheet's name. The amendment restricts
the requested name to strings without regex metacharacters: the code's
match is a regex search, so for names such as `"a.c"` the substring
description fails (see the counterexample). -/
theorem c4_rows (wb : Workbook) (st' : ProcState) (name startS endS : List Char)
    (sd ed : Date)
    (hproc : process_workbook initState wb = (.success, st'))
    (hnodup : (sheetNamesOf wb).Nodup)
    (hsd : parse_date startS = some sd) (hed : parse_date endS = some ed)
    (hname : name.all (fun c => !regexMetaChar c) = true) :
    (filter_data st' wb name startS endS).1 ≠ .errorNote ∧
    ∀ (s : List Char) (row : List Cell),
      (⟨s, row⟩ : ResultRow) ∈ (filter_data st' wb name startS endS).2 ↔
        ∃ sh ∈ wb.sheets, sh.name = s ∧ is_date_sheet s = true ∧
          (∃ dt, parse_date s = some dt ∧ inRange sd ed dt = true) ∧
          ∃ idx, findTeamLeaderCol sh.headers = some idx ∧ row ∈ sh.rows ∧
            substrCI name (cellStr (row.getD idx none)) = true := by
  obtain ⟨hne, hall, hds, htl, htlne⟩ := process_workbook_success hproc
  have hall' : st'.date_sheets.all (fun n => (parse_date n).isSome) = true := by
    rw [List.all_eq_true]
    intro n hn
    rw [hds] at hn
    exact hall n (mem_sortSheets.mp hn)
  obtain ⟨hsnd, hfst, -⟩ := @filter_data_run st' wb name startS endS sd ed hsd hed hall'
  refine ⟨hfst, ?_⟩
  intro s row
  rw [hsnd, List.mem_flatMap]
  constructor
  · rintro ⟨n, hnfs, hmem⟩
    have hsn : s = n := source_of_mem hmem
    subst hsn
    obtain ⟨hnds, dt, hdt, hrange⟩ := mem_sheetsInRange.mp hnfs
    rw [hds] at hnds
    have hmem2 := mem_sortSheets.mp hnds
    rw [List.mem_filter] at hmem2
    obtain ⟨hmemnames, hisdate⟩ := hmem2
    obtain ⟨sh, hrd, idx, hcol, row', hrow', hmatch, heq⟩ := mem_sheetFilteredRows.mp hmem
    injection heq with heq1 heq2
    subst heq2
    obtain ⟨hshmem, hshname⟩ := (find?_sheet_eq hnodup).mp hrd
    refine ⟨sh, hshmem, hshname, hisdate, ⟨dt, hdt, hrange⟩, idx, hcol, hrow', ?_⟩
    rw [← cellMatches_eq_substrCI name _ hname]
    exact hmatch
  · rintro ⟨sh, hshmem, hshname, hisdate, ⟨dt, hdt, hrange⟩, idx, hcol, hrow, hsub⟩
    refine ⟨s, ?_, ?_⟩
    · rw [mem_sheetsInRange]
      refine ⟨?_, dt, hdt, hrange⟩
      rw [hds, mem_sortSheets, List.mem_filter]
      refine ⟨?_, hisdate⟩
      rw [← hshname]
      exact List.mem_map_of_mem _ hshmem
    · rw [mem_sheetFilteredRows]
      refine ⟨sh, (find?_sheet_eq hnodup).mpr ⟨hshmem, hshname⟩, idx, hcol, row, hrow, ?_, rfl⟩
      rw [cellMatches_eq_substrCI name _ hname]
      exact hsub

/-- C4 witness: on a workbook with one date sheet holding supervisor value
`"abc"`, the metacharacter-free name `"b"` keeps that row exactly per the
substring criterion, and no error is reported. -/
theorem c4_rows_witness :
    (filter_data stDot wbDot ("b".toList) ("01.01.2024".toList)
      ("01.01.2024".toList)).1 ≠ FilterNote.errorNote :=
  (c4_rows wbDot stDot ("b".toList) ("01.01.2024".toList) ("01.01.2024".toList)
    ⟨2024, 1, 1⟩ ⟨2024, 1, 1⟩ (by decide) (by decide) (by decide) (by decide)
    (by decide)).1

/-- C4 counterexample: with the requested name `"a.c"`, the row whose
supervisor field is `"abc"` appears in the filtered result even though its
field does not contain `"a.c"` as a case-insensitive substring, refuting
the claim's "only if" direction for names with punctuation. -/
theorem c4_counterexample :
    process_workbook initState wbDot = (.success, stDot) ∧
    (⟨"01.01.2024".toList, [some ("abc".toList)]⟩ : ResultRow) ∈
      (filter_data stDot wbDot ("a.c".toList) ("01.01.2024".toList)
        ("01.01.2024".toList)).2 ∧
    substrCI ("a.c".toList)
      (cellStr (([some ("abc".toList)] : List Cell).getD 0 none)) = false := by
  decide

/-- C7: on valid inputs (parseable range and sheet dates), when no date sheet
lies in the requested range or no row of any in-range sheet matches the
requested name, both the desktop and the web `filter_data` return an
explicitly empty result, and the accompanying report is informational, not
an error. -/
theorem c7_empty (st : ProcState) (wb : Workbook) (name startS endS : List Char)
    (sd ed : Date)
    (hsd : parse_date startS = some sd) (hed : parse_date endS = some ed)
    (hall : st.date_sheets.all (fun n => (parse_date n).isSome) = true)
    (hempty : ∀ s ∈ sheetsInRange st.date_sheets sd ed, sheetFilteredRows wb name s = [])
    (hwall : ∀ sh ∈ wb.sheets, is_date_sheet sh.name = true →
      (parse_date sh.name).isSome = true)
    (hwempty : ∀ sh ∈ wb.sheets, is_date_sheet sh.name = true →
      inRange sd ed (dateKey sh.name) = true → sheetFilteredRows wb name sh.name = []) :
    ((filter_data st wb name startS endS).2 = [] ∧
      (filter_data st wb name startS endS).1.isError = false) ∧
    ((filter_data_web wb name startS endS).2 = [] ∧
      (filter_data_web wb name startS endS).1.isError = false) := by
  obtain ⟨hsnd, -, hinfo⟩ := @filter_data_run st wb name startS endS sd ed hsd hed hall
  have hrows : (sheetsInRange st.date_sheets sd ed).flatMap (sheetFilteredRows wb name) = [] :=
    List.flatMap_eq_nil_iff.mpr hempty
  refine ⟨⟨by rw [hsnd, hrows], hinfo hrows⟩, ?_⟩
  unfold filter_data_web
  have hguard : ((wb.sheets.filter fun sh => is_date_sheet sh.name).all
      (fun sh => (parse_date sh.name).isSome) &&
      ((wb.sheets.filter fun sh => is_date_sheet sh.name).isEmpty ||
        ((parse_date startS).isSome && (parse_date endS).isSome))) = true := by
    rw [Bool.and_eq_true]
    refine ⟨?_, ?_⟩
    · rw [List.all_eq_true]
      intro sh hsh
      rw [List.mem_filter] at hsh
      exact hwall sh hsh.1 hsh.2
    · rw [Bool.or_eq_true]
      right
      rw [hsd, hed]
      rfl
  dsimp only
  rw [if_pos hguard]
  have hrows2 : (wb.sheets.filter fun sh => is_date_sheet sh.name).flatMap
      (fun sh =>
        match parse_date sh.name, parse_date startS, parse_date endS with
        | some dt, some sd, some ed =>
            if inRange sd ed dt then sheetFilteredRows wb name sh.name else []
        | _, _, _ => []) = [] := by
    rw [List.flatMap_eq_nil_iff]
    intro sh hsh
    rw [List.mem_filter] at hsh
    cases hp : parse_date sh.name with
    | none =>
      rw [hsd, hed]
    | some dt =>
      rw [hsd, hed]
      dsimp only
      by_cases hr : inRange sd ed dt = true
      · rw [if_pos hr]
        have hdk : dateKey sh.name = dt := by
          unfold dateKey
          rw [hp]
          rfl
        exact hwempty sh hsh.1 hsh.2 (by rw [hdk]; exact hr)
      · rw [if_neg hr]
  rw [hrows2]
  simp [FilterNote.isError]

/-- C7 witness: requesting the absent supervisor `"Zed"` over a valid range
yields an empty result with an informational report in both front ends. -/
theorem c7_empty_witness :
    ((filter_data stC7 wbC7 ("Zed".toList) ("01.01.2024".toList)
        ("01.01.2024".toList)).2 = [] ∧
      (filter_data stC7 wbC7 ("Zed".toList) ("01.01.2024".toList)
        ("01.01.2024".toList)).1.isError = false) ∧
    ((filter_data_web wbC7 ("Zed".toList) ("01.01.2024".toList)
        ("01.01.2024".toList)).2 = [] ∧
      (filter_data_web wbC7 ("Zed".toList) ("01.01.2024".toList)
        ("01.01.2024".toList)).1.isError = false) :=
  c7_empty stC7 wbC7 ("Zed".toList) ("01.01.2024".toList) ("01.01.2024".toList)
    ⟨2024, 1, 1⟩ ⟨2024, 1, 1⟩ (by decide) (by decide) (by decide) (by decide)
    (by decide) (by decide)

/-- C8 (amended): in the desktop processor, given that date sheets exist and
all parse, the no-team-leaders error is reported if and only if no date
sheet contributes any supervisor value — which can happen even when a
resolvable supervisor column exists (for example on a sheet with a
resolvable column but no data rows, see the counterexample). In particular,
when no sheet has a resolvable column the error is reported, as the claim
states. -/
theorem c8_no_supervisors (st : ProcState) (wb : Workbook)
    (h1 : (sheetNamesOf wb).filter is_date_sheet ≠ [])
    (h2 : ∀ n ∈ (sheetNamesOf wb).filter is_date_sheet, (parse_date n).isSome = true)
    (hacc : st.team_leaders = ∅) :
    ((process_workbook st wb).1 = ProcOutcome.noTeamLeadersErr ↔
      ∀ n ∈ (sheetNamesOf wb).filter is_date_sheet, sheetSupervisorsByName wb n = ∅) ∧
    ((∀ sh ∈ wb.sheets, is_date_sheet sh.name = true →
        findTeamLeaderCol sh.headers = none) →
      (process_workbook st wb).1 = ProcOutcome.noTeamLeadersErr) := by
  have hiff : (process_workbook st wb).1 = ProcOutcome.noTeamLeadersErr ↔
      supervisorsFold wb (sortSheets ((sheetNamesOf wb).filter is_date_sheet))
        st.team_leaders = ∅ := by
    simp only [process_workbook]
    rw [if_neg (by simpa [List.isEmpty_iff] using h1)]
    rw [if_pos (List.all_eq_true.mpr h2)]
    by_cases h3 : supervisorsFold wb (sortSheets ((sheetNamesOf wb).filter is_date_sheet))
        st.team_leaders = ∅
    · rw [if_pos h3]
      simp [h3]
    · rw [if_neg h3]
      simp [h3]
  constructor
  · rw [hiff, Finset.eq_empty_iff_forall_not_mem]
    constructor
    · intro heq n hn
      rw [Finset.eq_empty_iff_forall_not_mem]
      intro x hx
      exact heq x ((mem_supervisorsFold _ _).mpr (Or.inr ⟨n, mem_sortSheets.mpr hn, hx⟩))
    · intro hall x hx
      rcases (mem_supervisorsFold _ _).mp hx with hx | ⟨n, hn, hx⟩
      · rw [hacc] at hx
        exact absurd hx (Finset.not_mem_empty x)
      · rw [hall n (mem_sortSheets.mp hn)] at hx
        exact absurd hx (Finset.not_mem_empty x)
  · intro hnone
    rw [hiff, Finset.eq_empty_iff_forall_not_mem]
    intro x hx
    rcases (mem_supervisorsFold _ _).mp hx with hx | ⟨n, hn, hx⟩
    · rw [hacc] at hx
      exact absurd hx (Finset.not_mem_empty x)
    · have hn' := mem_sortSheets.mp hn
      rw [List.mem_filter] at hn'
      cases hrd : readSheet wb n with
      | none =>
        simp only [sheetSupervisorsByName, hrd] at hx
        exact absurd hx (Finset.not_mem_empty x)
      | some sh =>
        simp only [sheetSupervisorsByName, hrd] at hx
        have hshmem : sh ∈ wb.sheets := List.mem_of_find?_eq_some hrd
        have hshn : sh.name = n := by simpa using List.find?_some hrd
        have hisd : is_date_sheet sh.name = true := by
          rw [hshn]
          exact hn'.2
        have hcol := hnone sh hshmem hisd
        simp only [sheetSupervisors, hcol] at hx
        exact absurd hx (Finset.not_mem_empty x)

/-- C8 witness: on a workbook whose only date sheet has a resolvable column
but no values, the desktop processor reports the no-team-leaders error. -/
theorem c8_no_supervisors_witness :
    (process_workbook initState wbNoRows).1 = ProcOutcome.noTeamLeadersErr :=
  (c8_no_supervisors initState wbNoRows (by decide) (by decide) (by decide)).1.mpr
    (by decide)

/-- C8 counterexample: the workbook `wbNoRows` has a date sheet with a
resolvable supervisor column (`"Supervisor"`), yet processing still reports
the no-team-leaders error because the sheet has no rows, refuting the
claim's "conversely" direction. -/
theorem c8_counterexample :
    (∃ sh ∈ wbNoRows.sheets, is_date_sheet sh.name = true ∧
      (findTeamLeaderCol sh.headers).isSome = true) ∧
    (process_workbook initState wbNoRows).1 = ProcOutcome.noTeamLeadersErr := by
  decide

/-- C10: the desktop processor's team-leader set is accumulated on the
instance and never cleared: after a successful run on workbook A, running
the same instance on workbook B (whose date sheets exist and parse) leaves
the union of A's and B's supervisor-value sets, not B's alone. -/
theorem c10_accumulation (wbA wbB : Workbook) (stA : ProcState)
    (hA : process_workbook initState wbA = (.success, stA))
    (hB1 : (sheetNamesOf wbB).filter is_date_sheet ≠ [])
    (hB2 : ∀ n ∈ (sheetNamesOf wbB).filter is_date_sheet, (parse_date n).isSome = true) :
    (process_workbook stA wbB).2.team_leaders =
      dateSheetSupervisors wbA ∪ dateSheetSupervisors wbB := by
  obtain ⟨-, -, -, htl, -⟩ := process_workbook_success hA
  have hsnd : (process_workbook stA wbB).2.team_leaders =
      supervisorsFold wbB (sortSheets ((sheetNamesOf wbB).filter is_date_sheet))
        stA.team_leaders := by
    simp only [process_workbook]
    rw [if_neg (by simpa [List.isEmpty_iff] using hB1)]
    rw [if_pos (List.all_eq_true.mpr hB2)]
    by_cases h3 : supervisorsFold wbB (sortSheets ((sheetNamesOf wbB).filter is_date_sheet))
        stA.team_leaders = ∅
    · rw [if_pos h3]
    · rw [if_neg h3]
  rw [hsnd, htl]
  apply Finset.ext
  intro x
  simp only [Finset.mem_union, dateSheetSupervisors, mem_supervisorsFold, mem_sortSheets,
    initState, Finset.not_mem_empty, false_or]

/-- C10 witness: processing workbook A (supervisor `"John"`) and then
workbook B (supervisor `"Sarah"`) on the same instance reports the union of
both supervisor sets. -/
theorem c10_accumulation_witness :
    process_workbook initState wbAccA = (.success, stAccA) ∧
    (process_workbook stAccA wbAccB).2.team_leaders =
      dateSheetSupervisors wbAccA ∪ dateSheetSupervisors wbAccB :=
  ⟨by decide, c10_accumulation wbAccA wbAccB stAccA (by decide) (by decide) (by decide)⟩

/-- C9: for every non-empty rectangular filtered table, the writer emits a
grid whose first row holds the headers verbatim, each styled bold with white
text (`FFFFFF`) on a solid dark-blue fill (`FF003366`, ARGB of `#003366`);
the remaining rows hold the data values verbatim in original column order
with no styling or coercion; and each column's width is
`(max rendered length among header and values + 2) × 1.2`, represented here
exactly in tenths as `(max + 2) × 12`. -/
theorem c9_writer (headers : List (List Char)) (rows : List (List (List Char)))
    (grid : List (List StyledCell)) (widths : List Nat)
    (_hrect : ∀ r ∈ rows, r.length = headers.length)
    (hres : create_summary_tables headers rows = some (grid, widths)) :
    (∃ grest, grid = headers.map headerCell :: grest ∧
      (headers.map headerCell).map StyledCell.value = headers ∧
      (∀ c ∈ headers.map headerCell, c.bold = true ∧
        c.fontColor = some ("FFFFFF".toList) ∧ c.fillColor = some ("FF003366".toList)) ∧
      grest.map (fun row => row.map StyledCell.value) = rows ∧
      (∀ row ∈ grest, ∀ c ∈ row, c.bold = false ∧ c.fontColor = none ∧
        c.fillColor = none)) ∧
    widths.length = headers.length ∧
    ∀ j, j < headers.length → widths.getD j 0 = (colMaxLen headers rows j + 2) * 12 := by
  unfold create_summary_tables at hres
  by_cases hre : rows.isEmpty
  · rw [if_pos hre] at hres
    exact absurd hres (by simp)
  · rw [if_neg hre] at hres
    have h := Option.some.inj hres
    injection h with hg hw
    subst hg
    subst hw
    refine ⟨⟨rows.map (fun r => r.map dataCell), rfl, ?_, ?_, ?_, ?_⟩, ?_, ?_⟩
    · rw [List.map_map]
      have hcomp : (StyledCell.value ∘ headerCell) = id := funext fun _ => rfl
      rw [hcomp, List.map_id]
    · rintro c hc
      rw [List.mem_map] at hc
      obtain ⟨h0, -, rfl⟩ := hc
      exact ⟨rfl, rfl, rfl⟩
    · have hcomp : (StyledCell.value ∘ dataCell) = id := funext fun _ => rfl
      simp [List.map_map, hcomp]
    · rintro row hrow c hc
      rw [List.mem_map] at hrow
      obtain ⟨r, -, rfl⟩ := hrow
      rw [List.mem_map] at hc
      obtain ⟨v, -, rfl⟩ := hc
      exact ⟨rfl, rfl, rfl⟩
    · simp
    · intro j hj
      rw [List.getD_eq_getElem?_getD, List.getElem?_map, List.getElem?_range hj]
      rfl

/-- C9 witness: for headers `Name`, `Supervisor` and the single data row
`Ann`, `John`, the second column's width is `(10 + 2) × 12` tenths. -/
theorem c9_writer_witness :
    widthsW.getD 1 0 = (colMaxLen headersW rowsW 1 + 2) * 12 :=
  (c9_writer headersW rowsW gridW widthsW (by decide) (by decide)).2.2 1 (by decide)

example : is_date_sheet ("01.01.2024".toList) = true := by decide
example : is_date_sheet ("01.01.2024\n".toList) = true := by decide
example : is_date_sheet ("01.01.2024 ".toList) = false := by decide
example : is_date_sheet ("1.1.2024".toList) = false := by decide
example : parse_date ("01.01.2024".toList) = some ⟨2024, 1, 1⟩ := by decide
example : parse_date ("31.02.2024".toList) = none := by decide
example : parse_date ("01.13.2024".toList) = none := by decide
example : parse_date ("01.01.0000".toList) = none := by decide
example : parse_date ("01.01.0024".toList) = some ⟨24, 1, 1⟩ := by decide
example : parse_date ("1.1.2024".toList) = some ⟨2024, 1, 1⟩ := by decide
example : parse_date ("01.01.2024\n".toList) = none := by decide
example : format_date ⟨24, 1, 1⟩ = "01.01.24".toList := by decide
example : format_date ⟨2024, 3, 7⟩ = "07.03.2024".toList := by decide

end Weekly
